import Mathlib

/-!
Shallow embedding of `populate_db.py`: a SQLite → PostgreSQL migration
script.  The script enumerates the tables of the source catalog, streams
each table in pages of `batch_size` rows (`cursor.fetchmany`), and issues
one `INSERT INTO t(...) VALUES %s ON CONFLICT DO NOTHING` plus one
`commit` per non-empty page.  Exceptions are caught at the loop level,
roll back the currently open transaction and fall through to a `finally`
block that closes both cursors.  The `__main__` block first runs the
schema DDL (`STAGING_CREATE_SQL`) and then the transfer.

Modelling choices (documented where used):
* a target row is a key (abstracting the primary/unique key the target
  checks on conflict) plus a payload of column values;
* `ON CONFLICT DO NOTHING` is per-row: a row whose key is already
  present in the evolving table is skipped, others are appended;
* non-duplicate constraint errors (e.g. a dangling foreign key) are
  modelled by a predicate `bad : Row → Bool`; a row that is actually
  inserted (not skipped) and is `bad` raises, aborting the statement;
  since the surrounding transaction is rolled back on any error, the
  committed state is unaffected by the failing statement;
* the per-table loop and the table enumeration produce an event trace
  (`ins`, `com`, `summary`) mirroring the `execute_values` call, the
  `conn_p.commit()` call and the per-table summary print.
-/

namespace PopulateDb

/-- A row as transferred by the script: an abstract conflict key (the
primary/unique key the target's `ON CONFLICT` clause checks) and the
remaining column values. -/
structure Row where
  key : Nat
  vals : List Int
deriving DecidableEq

/-- The keys currently present in a target table. -/
def keys (t : List Row) : List Nat := t.map Row.key

/-- One row of an `INSERT ... ON CONFLICT DO NOTHING` statement
(`populate_db.py` line 97): a key conflict skips the row silently; a row
that is actually inserted and violates a non-duplicate constraint
(`bad`) raises, failing the statement. -/
def insertRowE (bad : Row → Bool) (t : List Row) (r : Row) : Except Unit (List Row) :=
  if (keys t).contains r.key then .ok t
  else if bad r then .error ()
  else .ok (t ++ [r])

/-- One `execute_values` call (line 107): the whole page is one
statement, processed row by row. -/
def insertPageE (bad : Row → Bool) (t : List Row) (p : List Row) : Except Unit (List Row) :=
  p.foldlM (insertRowE bad) t

/-- A sequence of page inserts, all succeeding. -/
def insertPagesE (bad : Row → Bool) (t : List Row) (ps : List (List Row)) :
    Except Unit (List Row) :=
  ps.foldlM (insertPageE bad) t

/-- Fuel-indexed helper for `fetchPages`; the fuel is an upper bound on
the number of rows left and only makes the recursion structural. -/
def fetchPagesF (B : Nat) : Nat → List Row → List (List Row)
  | _, [] => []
  | 0, _ :: _ => []
  | fuel + 1, r :: rs =>
    if B = 0 then []
    else (r :: rs).take B :: fetchPagesF B fuel ((r :: rs).drop B)

/-- The pages produced by the `while True: rows = cur_s.fetchmany(batch_size)`
loop (lines 100–105): successive chunks of at most `B` rows; `fetchmany 0`
returns no rows, so the loop breaks at once and produces no pages. -/
def fetchPages (B : Nat) (l : List Row) : List (List Row) :=
  fetchPagesF B l.length l

/-- Observable events of the transfer: an `execute_values` call with its
page (line 107), a `conn_p.commit()` (line 108), the per-table summary
print (line 116), and the `conn_p.rollback()` of the `except` branch
(line 119). -/
inductive Ev where
  | ins (table : String) (page : List Row)
  | com
  | summary (table : String) (total : Nat)
  | rollback
deriving DecidableEq

def Ev.isIns : Ev → Bool
  | .ins _ _ => true
  | _ => false

def Ev.isCom : Ev → Bool
  | .com => true
  | _ => false

/-- The inner `while True` loop of `load_sqlite_to_postgres`
(lines 100–113) on the pages of one table: insert a page, commit it,
continue; a failing insert stops the loop with the committed state
unchanged (the open transaction holding the failed statement is rolled
back by the `except` branch).  Returns the committed table, the event
trace, and whether an exception was raised. -/
def runPages (bad : Row → Bool) (name : String) :
    List Row → List (List Row) → List Row × List Ev × Bool
  | t, [] => (t, [], false)
  | t, p :: ps =>
    match insertPageE bad t p with
    | .error _ => (t, [.ins name p], true)
    | .ok t1 =>
      let r := runPages bad name t1 ps
      (r.1, .ins name p :: .com :: r.2.1, r.2.2)

/-- The target database: an association of table names to committed
rows.  A name absent from the list is a table that does not exist in
the target (inserting into it raises). -/
abbrev Tgt := List (String × List Row)

def getTable : Tgt → String → Option (List Row)
  | [], _ => none
  | (n, t) :: rest, m => if n = m then some t else getTable rest m

/-- Replace the contents of an existing table; a missing name is left
missing (the transfer only ever writes to tables that exist). -/
def setTable : Tgt → String → List Row → Tgt
  | [], _, _ => []
  | (n, t) :: rest, m, v => if n = m then (n, v) :: rest else (n, t) :: setTable rest m v

/-- The per-table `for table in tables` loop of `load_sqlite_to_postgres`
(lines 88–116) over the enumerated source tables (name, rows): page the
rows, insert/commit each page, emit the per-table summary (line 116,
reached only when the table's loop completes without an exception); a
table with no pages issues no insert and no commit but still gets its
summary.  Inserting into a table missing from the target raises on the
first page.  On any exception the run stops (the `except` branch is
taken). -/
def runTables (bad : Row → Bool) (B : Nat) :
    List (String × List Row) → Tgt → Tgt × List Ev × Bool
  | [], tgt => (tgt, [], false)
  | (name, rows) :: rest, tgt =>
    match fetchPages B rows with
    | [] =>
      let r := runTables bad B rest tgt
      (r.1, .summary name 0 :: r.2.1, r.2.2)
    | p :: ps =>
      match getTable tgt name with
      | none => (tgt, [.ins name p], true)
      | some t =>
        let r := runPages bad name t (p :: ps)
        if r.2.2 then (setTable tgt name r.1, r.2.1, true)
        else
          let r2 := runTables bad B rest (setTable tgt name r.1)
          (r2.1, r.2.1 ++ .summary name ((p :: ps).flatten.length) :: r2.2.1, r2.2.2)

/-- `load_sqlite_to_postgres` (lines 79–125): run the table loop; the
`except` branch (lines 117–119) rolls back on error; the `finally`
branch (lines 120–122) closes both cursors on every path.  Returns the
final target, the trace, the error flag, and the pair
(source cursor closed, target cursor closed). -/
def loadSqliteToPostgres (bad : Row → Bool) (B : Nat)
    (src : List (String × List Row)) (tgt : Tgt) :
    Tgt × List Ev × Bool × (Bool × Bool) :=
  let r := runTables bad B src tgt
  (r.1, r.2.1 ++ (if r.2.2 then [.rollback] else []), r.2.2, (true, true))

/-- The six tables dropped and recreated by `STAGING_CREATE_SQL`. -/
def sixTables : List String :=
  ["Region", "Country", "Customer", "ProductCategory", "Product", "OrderDetail"]

/-- Drop the six staging tables from the target, keeping every other
table (the `DROP TABLE IF EXISTS ... CASCADE` statements). -/
def dropSix : Tgt → Tgt
  | [] => []
  | (n, t) :: rest => if n ∈ sixTables then dropSix rest else (n, t) :: dropSix rest

/-- Effect of executing `STAGING_CREATE_SQL` (lines 10–59): the six
tables are dropped (with CASCADE) and recreated empty; any other table
in the target is untouched. -/
def resetTgt (tgt : Tgt) : Tgt :=
  dropSix tgt ++ sixTables.map (fun n => (n, []))

/-- The full process described by the entry point: schema reset followed
by the paged transfer (returns the final target and the error flag). -/
def fullRun (bad : Row → Bool) (B : Nat) (src : List (String × List Row)) (tgt : Tgt) :
    Tgt × Bool :=
  let r := runTables bad B src (resetTgt tgt)
  (r.1, r.2.2)

/-! ## The DDL of `STAGING_CREATE_SQL` (lines 10–59) as data -/

/-- One `FOREIGN KEY (col) REFERENCES refTable(refCol)` clause. -/
structure FKey where
  col : String
  refTable : String
  refCol : String
deriving DecidableEq

/-- One `CREATE TABLE` statement of `STAGING_CREATE_SQL`: every declared
column is `NOT NULL` in the script, so columns are just names here. -/
structure TableDef where
  name : String
  columns : List String
  primaryKey : String
  uniqueCols : List String
  foreignKeys : List FKey
deriving DecidableEq

/-- The `DROP TABLE IF EXISTS ... CASCADE` statements, in the order they
appear (lines 12–17). -/
def dropOrder : List String :=
  ["ProductCategory", "OrderDetail", "Product", "Customer", "Country", "Region"]

/-- The six `CREATE TABLE` statements, in the order they appear
(lines 19–58). -/
def stagingTables : List TableDef :=
  [ { name := "Region", columns := ["RegionID", "Region"],
      primaryKey := "RegionID", uniqueCols := ["Region"], foreignKeys := [] },
    { name := "Country", columns := ["CountryID", "Country", "RegionID"],
      primaryKey := "CountryID", uniqueCols := ["Country"],
      foreignKeys := [⟨"RegionID", "Region", "RegionID"⟩] },
    { name := "Customer",
      columns := ["CustomerID", "FirstName", "LastName", "Address", "City", "CountryID"],
      primaryKey := "CustomerID", uniqueCols := [],
      foreignKeys := [⟨"CountryID", "Country", "CountryID"⟩] },
    { name := "ProductCategory",
      columns := ["ProductCategoryID", "ProductCategory", "ProductCategoryDescription"],
      primaryKey := "ProductCategoryID", uniqueCols := ["ProductCategory"], foreignKeys := [] },
    { name := "Product",
      columns := ["ProductID", "ProductName", "ProductUnitPrice", "ProductCategoryID"],
      primaryKey := "ProductID", uniqueCols := ["ProductName"],
      foreignKeys := [⟨"ProductCategoryID", "ProductCategory", "ProductCategoryID"⟩] },
    { name := "OrderDetail",
      columns := ["OrderID", "CustomerID", "ProductID", "OrderDate", "QuantityOrdered"],
      primaryKey := "OrderID", uniqueCols := [],
      foreignKeys := [⟨"CustomerID", "Customer", "CustomerID"⟩,
                      ⟨"ProductID", "Product", "ProductID"⟩] } ]

/-- The foreign-key dependency edges (dependent table, referenced table)
derived from the `CREATE TABLE` statements. -/
def fkEdges : List (String × String) :=
  stagingTables.flatMap (fun t => t.foreignKeys.map (fun fk => (t.name, fk.refTable)))

/-- Position of a table in the drop sequence. -/
def dropIdx (n : String) : Nat := dropOrder.indexOf n

/-- Whether every dependent table is dropped before each table it
references. -/
def dropRespectsFK : Bool :=
  fkEdges.all (fun e => dropIdx e.1 < dropIdx e.2)

/-! ## Module evaluation (the import-time behaviour of `populate_db.py`)

Python evaluates a module top to bottom; a `def` line evaluates its
default-argument expressions at definition time.  Each top-level
statement is modelled by the names it evaluates and the names it
binds. -/

structure PyStmt where
  line : Nat
  reads : List String
  binds : List String

/-- Evaluate one top-level statement: a name read before it is bound
raises `NameError` (reported with the offending name and line). -/
def evalStmt (env : List String) (s : PyStmt) : Except (String × Nat) (List String) :=
  match s.reads.find? (fun n => !(env.contains n)) with
  | some n => .error (n, s.line)
  | none => .ok (env ++ s.binds)

def runModule (stmts : List PyStmt) (env : List String) :
    Except (String × Nat) (List String) :=
  stmts.foldlM evalStmt env

/-- The top-level statements of `populate_db.py` up to the `__main__`
block: the imports (lines 1–7), the `STAGING_CREATE_SQL` assignment
(line 10), and the three `def` statements.  Line 70's
`def connect_databases(sqlite_db, postgres_db = DATABASE_URL)` evaluates
the name `DATABASE_URL` at definition time; `DATABASE_URL` is assigned
only inside the `__main__` block (line 130). -/
def moduleStmts : List PyStmt :=
  [ { line := 1, reads := [], binds := ["os"] },
    { line := 2, reads := [], binds := ["sqlite3"] },
    { line := 3, reads := [], binds := ["time"] },
    { line := 4, reads := [], binds := ["execute_values"] },
    { line := 5, reads := [], binds := ["bcrypt"] },
    { line := 6, reads := [], binds := ["load_dotenv"] },
    { line := 7, reads := [], binds := ["st"] },
    { line := 10, reads := [], binds := ["STAGING_CREATE_SQL"] },
    { line := 60, reads := [], binds := ["get_db_url"] },
    { line := 70, reads := ["DATABASE_URL"], binds := ["connect_databases"] },
    { line := 79, reads := [], binds := ["load_sqlite_to_postgres"] },
    { line := 130, reads := ["get_db_url"], binds := ["DATABASE_URL"] } ]

/-! ## The `__main__` block (lines 128–147)

State of the entry point's schema phase: which steps ran and which
explicit `close()` calls were reached.  `connect_databases`
(lines 70–77) catches connection errors and returns `None`; the
`__main__` block then unpacks the result, so a `None` raises a
`TypeError` before any DDL runs.  After a successful DDL `execute`,
line 137 calls `commit()` on the *cursor* object, which psycopg2
cursors do not define, so an `AttributeError` is raised there on every
run that gets that far; the block has no `try`/`finally`, so the
remaining `close()` calls (lines 138–139) never run on that path. -/

structure MainState where
  ddlExecuted : Bool
  ddlCommitted : Bool
  transferRan : Bool
  connSClosed : Bool
  connPClosed : Bool
  curPClosed : Bool
deriving DecidableEq

/-- `connect_databases` (lines 70–77): both connections or, on any
exception, `None`. -/
def connectDatabases (connectOk : Bool) : Option (Unit × Unit) :=
  if connectOk then some ((), ()) else none

/-- The `__main__` block's schema phase (lines 130–140), followed — were
it ever reached — by the transfer phase.  Parameters: whether connecting
succeeds, whether the DDL `execute` succeeds.  Returns the final state
and whether the block aborted with an uncaught exception. -/
def runMain (connectOk ddlOk : Bool) : MainState × Bool :=
  match connectDatabases connectOk with
  | none =>
    -- line 133: unpacking `None` raises TypeError; nothing was closed.
    ({ ddlExecuted := false, ddlCommitted := false, transferRan := false,
       connSClosed := false, connPClosed := false, curPClosed := false }, true)
  | some _ =>
    -- line 134: conn_s.close(); line 135: cur_p = conn_p.cursor()
    if ddlOk then
      -- line 136 succeeds; line 137 `cur_p.commit()` raises AttributeError.
      ({ ddlExecuted := true, ddlCommitted := false, transferRan := false,
         connSClosed := true, connPClosed := false, curPClosed := false }, true)
    else
      -- line 136 raises; lines 137–139 never run.
      ({ ddlExecuted := false, ddlCommitted := false, transferRan := false,
         connSClosed := true, connPClosed := false, curPClosed := false }, true)

/-! ## Lemmas about `fetchPages` -/

theorem fetchPagesF_fuel_eq (B : Nat) :
    ∀ (f1 f2 : Nat) (l : List Row), l.length ≤ f1 → l.length ≤ f2 →
      fetchPagesF B f1 l = fetchPagesF B f2 l := by
  intro f1
  induction f1 with
  | zero =>
    intro f2 l h1 _
    have hl : l = [] := List.eq_nil_of_length_eq_zero (Nat.le_zero.mp h1)
    subst hl
    cases f2 <;> simp [fetchPagesF]
  | succ f ih =>
    intro f2 l h1 h2
    cases l with
    | nil => cases f2 <;> simp [fetchPagesF]
    | cons r rs =>
      cases f2 with
      | zero => simp at h2
      | succ f2' =>
        simp only [fetchPagesF]
        by_cases hB : B = 0
        · simp [hB]
        · simp only [if_neg hB]
          congr 1
          apply ih
          · simp only [List.length_drop, List.length_cons]
            simp only [List.length_cons] at h1
            omega
          · simp only [List.length_drop, List.length_cons]
            simp only [List.length_cons] at h2
            omega

theorem fetchPages_cons (B : Nat) (hB : B ≠ 0) (r : Row) (rs : List Row) :
    fetchPages B (r :: rs) = (r :: rs).take B :: fetchPages B ((r :: rs).drop B) := by
  show fetchPagesF B (r :: rs).length (r :: rs) = _
  simp only [List.length_cons, fetchPagesF, if_neg hB]
  congr 1
  apply fetchPagesF_fuel_eq
  · simp only [List.length_drop, List.length_cons]; omega
  · exact Nat.le_refl _

theorem fetchPages_zero (l : List Row) : fetchPages 0 l = [] := by
  cases l with
  | nil => rfl
  | cons r rs => show fetchPagesF 0 _ _ = []; simp [fetchPagesF]

theorem fetchPages_flatten (B : Nat) (hB : 0 < B) (l : List Row) :
    (fetchPages B l).flatten = l := by
  have H : ∀ (n : Nat) (l : List Row), l.length ≤ n → (fetchPages B l).flatten = l := by
    intro n
    induction n with
    | zero =>
      intro l h
      have hl : l = [] := List.eq_nil_of_length_eq_zero (Nat.le_zero.mp h)
      subst hl; rfl
    | succ n ih =>
      intro l h
      cases l with
      | nil => rfl
      | cons r rs =>
        rw [fetchPages_cons B (Nat.pos_iff_ne_zero.mp hB)]
        have hle : ((r :: rs).drop B).length ≤ n := by
          simp only [List.length_drop, List.length_cons]
          simp only [List.length_cons] at h
          omega
        rw [List.flatten_cons, ih _ hle]
        exact List.take_append_drop B (r :: rs)
  exact H l.length l (Nat.le_refl _)

theorem fetchPages_length (B : Nat) (hB : 0 < B) (l : List Row) :
    (fetchPages B l).length = (l.length + B - 1) / B := by
  have H : ∀ (n : Nat) (l : List Row), l.length ≤ n →
      (fetchPages B l).length = (l.length + B - 1) / B := by
    intro n
    induction n with
    | zero =>
      intro l h
      have hl : l = [] := List.eq_nil_of_length_eq_zero (Nat.le_zero.mp h)
      subst hl
      show (0 : Nat) = (0 + B - 1) / B
      rw [Nat.zero_add]
      exact (Nat.div_eq_of_lt (by omega)).symm
    | succ n ih =>
      intro l h
      cases l with
      | nil =>
        show (0 : Nat) = (0 + B - 1) / B
        rw [Nat.zero_add]
        exact (Nat.div_eq_of_lt (by omega)).symm
      | cons r rs =>
        rw [fetchPages_cons B (Nat.pos_iff_ne_zero.mp hB)]
        have hle : ((r :: rs).drop B).length ≤ n := by
          simp only [List.length_drop, List.length_cons]
          simp only [List.length_cons] at h
          omega
        rw [List.length_cons, ih _ hle]
        simp only [List.length_drop, List.length_cons]
        rcases Nat.lt_or_ge (rs.length + 1) B with hc | hc
        · have e1 : rs.length + 1 - B = 0 := by omega
          rw [e1]
          have e2 : (0 + B - 1) / B = 0 := Nat.div_eq_of_lt (by omega)
          rw [e2]
          have e3 : rs.length + 1 + B - 1 = rs.length + B := by omega
          rw [e3, Nat.add_div_right _ hB, Nat.div_eq_of_lt (by omega)]
        · have h1 : rs.length + 1 - B + B - 1 = rs.length := by omega
          have h2 : rs.length + 1 + B - 1 = rs.length + B := by omega
          rw [h1, h2, Nat.add_div_right _ hB]
  exact H l.length l (Nat.le_refl _)

theorem fetchPages_mem (B : Nat) (l : List Row) (p : List Row)
    (hp : p ∈ fetchPages B l) : p ≠ [] ∧ p.length ≤ B := by
  have H : ∀ (n : Nat) (l : List Row), l.length ≤ n → p ∈ fetchPages B l →
      p ≠ [] ∧ p.length ≤ B := by
    intro n
    induction n with
    | zero =>
      intro l h hp
      have hl : l = [] := List.eq_nil_of_length_eq_zero (Nat.le_zero.mp h)
      subst hl; simp [fetchPages, fetchPagesF] at hp
    | succ n ih =>
      intro l h hp
      cases l with
      | nil => simp [fetchPages, fetchPagesF] at hp
      | cons r rs =>
        by_cases hB : B = 0
        · rw [hB, fetchPages_zero] at hp
          simp at hp
        · rw [fetchPages_cons B hB] at hp
          rcases List.mem_cons.mp hp with hc | hc
          · subst hc
            constructor
            · simp only [ne_eq, List.take_eq_nil_iff]
              intro hcon
              rcases hcon with hx | hx
              · exact hB hx
              · exact List.cons_ne_nil r rs hx
            · rw [List.length_take]
              exact Nat.min_le_left _ _
          · have hle : ((r :: rs).drop B).length ≤ n := by
              simp only [List.length_drop, List.length_cons]
              simp only [List.length_cons] at h
              omega
            exact ih _ hle hc
  exact H l.length l (Nat.le_refl _) hp

theorem fetchPages_eq_nil_iff (B : Nat) (hB : 0 < B) (l : List Row) :
    fetchPages B l = [] ↔ l = [] := by
  constructor
  · intro h
    cases l with
    | nil => rfl
    | cons r rs =>
      rw [fetchPages_cons B (Nat.pos_iff_ne_zero.mp hB)] at h
      exact absurd h (List.cons_ne_nil _ _)
  · intro h; subst h; rfl

/-! ## Lemmas about the insert semantics -/

theorem exceptBind_ok {ε α β : Type} (a : α) (f : α → Except ε β) :
    (Except.ok a >>= f) = f a := rfl

theorem exceptBind_error {ε α β : Type} (e : ε) (f : α → Except ε β) :
    ((Except.error e : Except ε α) >>= f) = Except.error e := rfl

theorem keysContains_iff (t : List Row) (k : Nat) :
    (keys t).contains k = true ↔ k ∈ keys t := by
  simp [List.contains, List.elem_iff]

theorem insertRowE_skip (bad : Row → Bool) (t : List Row) (r : Row)
    (h : r.key ∈ keys t) : insertRowE bad t r = .ok t := by
  unfold insertRowE
  rw [if_pos ((keysContains_iff t r.key).mpr h)]

theorem insertRowE_ok_cases (bad : Row → Bool) (t : List Row) (r : Row) (t' : List Row)
    (h : insertRowE bad t r = .ok t') :
    (t' = t ∧ r.key ∈ keys t) ∨ (t' = t ++ [r] ∧ r.key ∉ keys t ∧ bad r = false) := by
  unfold insertRowE at h
  by_cases hc : r.key ∈ keys t
  · left
    rw [if_pos ((keysContains_iff t r.key).mpr hc)] at h
    exact ⟨(Except.ok.injEq _ _ |>.mp h).symm, hc⟩
  · right
    have hcf : (keys t).contains r.key = false := by
      rw [← Bool.not_eq_true]
      intro hx
      exact hc ((keysContains_iff t r.key).mp hx)
    rw [hcf] at h
    simp only [Bool.false_eq_true, if_false] at h
    cases hbad : bad r with
    | true => rw [hbad] at h; simp at h
    | false =>
      rw [hbad] at h
      simp only [if_false, Bool.false_eq_true] at h
      exact ⟨(Except.ok.injEq _ _ |>.mp h).symm, hc, rfl⟩

theorem insertRowE_props (bad : Row → Bool) (t : List Row) (r : Row) (t' : List Row)
    (h : insertRowE bad t r = .ok t') :
    (∀ x ∈ t, x ∈ t') ∧ (∀ k ∈ keys t, k ∈ keys t') ∧ r.key ∈ keys t' ∧
      (∀ x ∈ t', x ∈ t ∨ x = r) := by
  rcases insertRowE_ok_cases bad t r t' h with ⟨he, hk⟩ | ⟨he, _, _⟩
  · subst he
    exact ⟨fun x hx => hx, fun k hk => hk, hk, fun x hx => Or.inl hx⟩
  · subst he
    refine ⟨fun x hx => List.mem_append_left _ hx,
            fun k hk => ?_, ?_, fun x hx => ?_⟩
    · simp only [keys, List.map_append] at *
      exact List.mem_append_left _ hk
    · simp [keys, List.map_append]
    · rcases List.mem_append.mp hx with hx | hx
      · exact Or.inl hx
      · simp only [List.mem_singleton] at hx
        exact Or.inr hx

theorem insertPageE_props (bad : Row → Bool) :
    ∀ (p : List Row) (t t1 : List Row), insertPageE bad t p = .ok t1 →
      (∀ x ∈ t, x ∈ t1) ∧ (∀ k ∈ keys t, k ∈ keys t1) ∧
        (∀ r ∈ p, r.key ∈ keys t1) ∧ (∀ x ∈ t1, x ∈ t ∨ x ∈ p) := by
  intro p
  induction p with
  | nil =>
    intro t t1 h
    simp only [insertPageE, List.foldlM_nil] at h
    cases h
    exact ⟨fun x hx => hx, fun k hk => hk, by simp, fun x hx => Or.inl hx⟩
  | cons r p ih =>
    intro t t1 h
    simp only [insertPageE, List.foldlM_cons] at h
    cases hres : insertRowE bad t r with
    | error e => rw [hres, exceptBind_error] at h; simp at h
    | ok tm =>
      rw [hres, exceptBind_ok] at h
      obtain ⟨hm1, hm2, hm3, hm4⟩ := ih tm t1 h
      obtain ⟨hr1, hr2, hr3, hr4⟩ := insertRowE_props bad t r tm hres
      refine ⟨fun x hx => hm1 x (hr1 x hx), fun k hk => hm2 k (hr2 k hk), ?_, ?_⟩
      · intro q hq
        rcases List.mem_cons.mp hq with hq | hq
        · subst hq; exact hm2 _ hr3
        · exact hm3 q hq
      · intro x hx
        rcases hm4 x hx with hx' | hx'
        · rcases hr4 x hx' with hx'' | hx''
          · exact Or.inl hx''
          · exact Or.inr (by simp [hx''])
        · exact Or.inr (List.mem_cons_of_mem _ hx')

theorem insertPageE_absorb (bad : Row → Bool) :
    ∀ (p : List Row) (t : List Row), (∀ r ∈ p, r.key ∈ keys t) →
      insertPageE bad t p = .ok t := by
  intro p
  induction p with
  | nil => intro t _; rfl
  | cons r p ih =>
    intro t h
    simp only [insertPageE, List.foldlM_cons]
    rw [insertRowE_skip bad t r (h r (List.mem_cons_self _ _)), exceptBind_ok]
    exact ih t (fun q hq => h q (List.mem_cons_of_mem _ hq))

/-! ## Lemmas about the per-table page loop `runPages` -/

theorem runPages_nil (bad : Row → Bool) (name : String) (t : List Row) :
    runPages bad name t [] = (t, [], false) := rfl

theorem runPages_cons_err (bad : Row → Bool) (name : String) (t : List Row)
    (p : List Row) (ps : List (List Row)) (e : Unit)
    (hres : insertPageE bad t p = .error e) :
    runPages bad name t (p :: ps) = (t, [.ins name p], true) := by
  simp only [runPages, hres]

theorem runPages_cons_ok (bad : Row → Bool) (name : String) (t t1 : List Row)
    (p : List Row) (ps : List (List Row))
    (hres : insertPageE bad t p = .ok t1) :
    runPages bad name t (p :: ps) =
      ((runPages bad name t1 ps).1,
       .ins name p :: .com :: (runPages bad name t1 ps).2.1,
       (runPages bad name t1 ps).2.2) := by
  simp only [runPages, hres]

theorem runPages_ok_trace (bad : Row → Bool) (name : String) :
    ∀ (ps : List (List Row)) (t t' : List Row) (tr : List Ev),
      runPages bad name t ps = (t', tr, false) →
      insertPagesE bad t ps = .ok t' ∧
        tr = ps.flatMap (fun p => [Ev.ins name p, Ev.com]) := by
  intro ps
  induction ps with
  | nil =>
    intro t t' tr h
    rw [runPages_nil] at h
    simp only [Prod.mk.injEq] at h
    obtain ⟨rfl, rfl, -⟩ := h
    exact ⟨rfl, rfl⟩
  | cons p ps ih =>
    intro t t' tr h
    cases hres : insertPageE bad t p with
    | error e =>
      rw [runPages_cons_err bad name t p ps e hres] at h
      simp at h
    | ok t1 =>
      rw [runPages_cons_ok bad name t t1 p ps hres] at h
      simp only [Prod.mk.injEq] at h
      obtain ⟨h1, h2, h3⟩ := h
      obtain ⟨hrec, htr⟩ := ih t1 (runPages bad name t1 ps).1 (runPages bad name t1 ps).2.1
        (by rw [← h3])
      constructor
      · simp only [insertPagesE, List.foldlM_cons]
        rw [hres, exceptBind_ok, ← h1]
        exact hrec
      · rw [← h2, htr]
        simp [List.flatMap_cons]


theorem runPages_mono (bad : Row → Bool) (name : String) :
    ∀ (ps : List (List Row)) (t : List Row),
      (∀ x ∈ t, x ∈ (runPages bad name t ps).1) ∧
        (∀ k ∈ keys t, k ∈ keys (runPages bad name t ps).1) := by
  intro ps
  induction ps with
  | nil => intro t; exact ⟨fun x hx => hx, fun k hk => hk⟩
  | cons p ps ih =>
    intro t
    cases hres : insertPageE bad t p with
    | error e =>
      rw [runPages_cons_err bad name t p ps e hres]
      exact ⟨fun x hx => hx, fun k hk => hk⟩
    | ok t1 =>
      rw [runPages_cons_ok bad name t t1 p ps hres]
      obtain ⟨hp1, hp2, _, _⟩ := insertPageE_props bad p t t1 hres
      obtain ⟨hm1, hm2⟩ := ih t1
      exact ⟨fun x hx => hm1 x (hp1 x hx), fun k hk => hm2 k (hp2 k hk)⟩

theorem runPages_err (bad : Row → Bool) (name : String) :
    ∀ (ps : List (List Row)) (t t' : List Row) (tr : List Ev),
      runPages bad name t ps = (t', tr, true) →
      ∃ i p, ps[i]? = some p ∧
        insertPagesE bad t (ps.take i) = .ok t' ∧
        insertPageE bad t' p = .error () ∧
        tr = (ps.take i).flatMap (fun q => [Ev.ins name q, Ev.com]) ++ [Ev.ins name p] := by
  intro ps
  induction ps with
  | nil =>
    intro t t' tr h
    rw [runPages_nil] at h
    simp at h
  | cons p ps ih =>
    intro t t' tr h
    cases hres : insertPageE bad t p with
    | error e =>
      rw [runPages_cons_err bad name t p ps e hres] at h
      simp only [Prod.mk.injEq] at h
      obtain ⟨rfl, rfl, -⟩ := h
      refine ⟨0, p, by simp, rfl, ?_, by simp⟩
      cases e
      exact hres
    | ok t1 =>
      rw [runPages_cons_ok bad name t t1 p ps hres] at h
      simp only [Prod.mk.injEq] at h
      obtain ⟨h1, h2, h3⟩ := h
      obtain ⟨i, q, hq, hok, herr, htr⟩ :=
        ih t1 (runPages bad name t1 ps).1 (runPages bad name t1 ps).2.1 (by rw [← h3])
      refine ⟨i + 1, q, ?_, ?_, ?_, ?_⟩
      · simpa using hq
      · simp only [List.take_succ_cons, insertPagesE, List.foldlM_cons]
        rw [hres, exceptBind_ok, ← h1]
        exact hok
      · rw [← h1]; exact herr
      · rw [← h2, htr]
        simp [List.flatMap_cons]

theorem runPages_replay (bad : Row → Bool) (name : String) :
    ∀ (ps : List (List Row)) (t t' : List Row) (tr : List Ev) (e : Bool),
      runPages bad name t ps = (t', tr, e) →
      runPages bad name t' ps = (t', tr, e) := by
  intro ps
  induction ps with
  | nil =>
    intro t t' tr e h
    rw [runPages_nil] at h
    simp only [Prod.mk.injEq] at h
    obtain ⟨rfl, rfl, rfl⟩ := h
    rfl
  | cons p ps ih =>
    intro t t' tr e h
    cases hres : insertPageE bad t p with
    | error err =>
      rw [runPages_cons_err bad name t p ps err hres] at h
      simp only [Prod.mk.injEq] at h
      obtain ⟨rfl, rfl, rfl⟩ := h
      exact runPages_cons_err bad name t p ps err hres
    | ok t1 =>
      rw [runPages_cons_ok bad name t t1 p ps hres] at h
      simp only [Prod.mk.injEq] at h
      obtain ⟨h1, h2, h3⟩ := h
      have hrep := ih t1 (runPages bad name t1 ps).1 (runPages bad name t1 ps).2.1
        (runPages bad name t1 ps).2.2 rfl
      have habs : insertPageE bad t' p = .ok t' := by
        obtain ⟨_, _, hkeys, _⟩ := insertPageE_props bad p t t1 hres
        obtain ⟨_, hkmono⟩ := runPages_mono bad name ps t1
        apply insertPageE_absorb
        intro r hr
        rw [← h1]
        exact hkmono _ (hkeys r hr)
      rw [runPages_cons_ok bad name t' t' p ps habs, ← h1, hrep]
      simp only [Prod.mk.injEq]
      exact ⟨trivial, h2, h3⟩

/-! ## Lemmas about `getTable`, `setTable` and the table loop `runTables` -/

theorem getTable_setTable_self (n : String) (v : List Row) :
    ∀ (tgt : Tgt) (v0 : List Row), getTable tgt n = some v0 →
      getTable (setTable tgt n v) n = some v := by
  intro tgt
  induction tgt with
  | nil => intro v0 h; simp [getTable] at h
  | cons hd tl ih =>
    intro v0 h
    obtain ⟨m, t⟩ := hd
    by_cases hm : m = n
    · subst hm
      simp [getTable, setTable]
    · simp only [getTable, setTable, if_neg hm] at h ⊢
      exact ih v0 h

theorem getTable_setTable_ne (n m : String) (v : List Row) (hnm : m ≠ n) :
    ∀ (tgt : Tgt), getTable (setTable tgt n v) m = getTable tgt m := by
  intro tgt
  induction tgt with
  | nil => rfl
  | cons hd tl ih =>
    obtain ⟨k, t⟩ := hd
    by_cases hk : k = n
    · subst hk
      simp only [setTable, if_pos rfl, getTable]
      rw [if_neg (fun h => hnm h.symm), if_neg (fun h => hnm h.symm)]
    · simp only [setTable, if_neg hk, getTable]
      by_cases hkm : k = m
      · rw [if_pos hkm, if_pos hkm]
      · rw [if_neg hkm, if_neg hkm]
        exact ih

theorem setTable_absent (n : String) (v : List Row) :
    ∀ (tgt : Tgt), getTable tgt n = none → setTable tgt n v = tgt := by
  intro tgt
  induction tgt with
  | nil => intro _; rfl
  | cons hd tl ih =>
    intro h
    obtain ⟨m, t⟩ := hd
    by_cases hm : m = n
    · subst hm; simp [getTable] at h
    · simp only [getTable, if_neg hm] at h
      simp only [setTable, if_neg hm]
      rw [ih h]

theorem runTables_nil (bad : Row → Bool) (B : Nat) (tgt : Tgt) :
    runTables bad B [] tgt = (tgt, [], false) := rfl

theorem runTables_cons_empty (bad : Row → Bool) (B : Nat) (name : String)
    (rows : List Row) (rest : List (String × List Row)) (tgt : Tgt)
    (hp : fetchPages B rows = []) :
    runTables bad B ((name, rows) :: rest) tgt =
      ((runTables bad B rest tgt).1,
       .summary name 0 :: (runTables bad B rest tgt).2.1,
       (runTables bad B rest tgt).2.2) := by
  simp only [runTables, hp]

theorem runTables_cons_missing (bad : Row → Bool) (B : Nat) (name : String)
    (rows : List Row) (rest : List (String × List Row)) (tgt : Tgt)
    (p : List Row) (ps : List (List Row))
    (hp : fetchPages B rows = p :: ps) (hg : getTable tgt name = none) :
    runTables bad B ((name, rows) :: rest) tgt = (tgt, [.ins name p], true) := by
  simp only [runTables, hp, hg]

theorem runTables_cons_err (bad : Row → Bool) (B : Nat) (name : String)
    (rows : List Row) (rest : List (String × List Row)) (tgt : Tgt)
    (p : List Row) (ps : List (List Row)) (t : List Row)
    (hp : fetchPages B rows = p :: ps) (hg : getTable tgt name = some t)
    (he : (runPages bad name t (p :: ps)).2.2 = true) :
    runTables bad B ((name, rows) :: rest) tgt =
      (setTable tgt name (runPages bad name t (p :: ps)).1,
       (runPages bad name t (p :: ps)).2.1, true) := by
  simp only [runTables, hp, hg, he, if_true]

theorem runTables_cons_ok (bad : Row → Bool) (B : Nat) (name : String)
    (rows : List Row) (rest : List (String × List Row)) (tgt : Tgt)
    (p : List Row) (ps : List (List Row)) (t : List Row)
    (hp : fetchPages B rows = p :: ps) (hg : getTable tgt name = some t)
    (he : (runPages bad name t (p :: ps)).2.2 = false) :
    runTables bad B ((name, rows) :: rest) tgt =
      ((runTables bad B rest (setTable tgt name (runPages bad name t (p :: ps)).1)).1,
       (runPages bad name t (p :: ps)).2.1 ++
         .summary name ((p :: ps).flatten.length) ::
           (runTables bad B rest (setTable tgt name (runPages bad name t (p :: ps)).1)).2.1,
       (runTables bad B rest (setTable tgt name (runPages bad name t (p :: ps)).1)).2.2) := by
  simp only [runTables, hp, hg, he, Bool.false_eq_true, if_false]

theorem runTables_frame (bad : Row → Bool) (B : Nat) :
    ∀ (src : List (String × List Row)) (tgt : Tgt) (n : String),
      n ∉ src.map Prod.fst →
      getTable (runTables bad B src tgt).1 n = getTable tgt n := by
  intro src
  induction src with
  | nil => intro tgt n _; rfl
  | cons hd rest ih =>
    intro tgt n hn
    obtain ⟨name, rows⟩ := hd
    simp only [List.map_cons, List.mem_cons, not_or] at hn
    obtain ⟨hn1, hn2⟩ := hn
    cases hp : fetchPages B rows with
    | nil =>
      rw [runTables_cons_empty bad B name rows rest tgt hp]
      exact ih tgt n hn2
    | cons p ps =>
      cases hg : getTable tgt name with
      | none => rw [runTables_cons_missing bad B name rows rest tgt p ps hp hg]
      | some t =>
        cases he : (runPages bad name t (p :: ps)).2.2 with
        | true =>
          rw [runTables_cons_err bad B name rows rest tgt p ps t hp hg he]
          exact getTable_setTable_ne name n _ hn1 tgt
        | false =>
          rw [runTables_cons_ok bad B name rows rest tgt p ps t hp hg he]
          rw [ih _ n hn2]
          exact getTable_setTable_ne name n _ hn1 tgt

theorem runTables_empty_fst (bad : Row → Bool) (B : Nat) (name : String)
    (rows : List Row) (rest : List (String × List Row)) (tgt : Tgt)
    (hp : fetchPages B rows = []) :
    (runTables bad B ((name, rows) :: rest) tgt).1 = (runTables bad B rest tgt).1 := by
  rw [runTables_cons_empty bad B name rows rest tgt hp]

theorem runTables_empty_tr (bad : Row → Bool) (B : Nat) (name : String)
    (rows : List Row) (rest : List (String × List Row)) (tgt : Tgt)
    (hp : fetchPages B rows = []) :
    (runTables bad B ((name, rows) :: rest) tgt).2.1 =
      .summary name 0 :: (runTables bad B rest tgt).2.1 := by
  rw [runTables_cons_empty bad B name rows rest tgt hp]

theorem runTables_empty_err (bad : Row → Bool) (B : Nat) (name : String)
    (rows : List Row) (rest : List (String × List Row)) (tgt : Tgt)
    (hp : fetchPages B rows = []) :
    (runTables bad B ((name, rows) :: rest) tgt).2.2 = (runTables bad B rest tgt).2.2 := by
  rw [runTables_cons_empty bad B name rows rest tgt hp]

theorem runTables_missing_fst (bad : Row → Bool) (B : Nat) (name : String)
    (rows : List Row) (rest : List (String × List Row)) (tgt : Tgt)
    (p : List Row) (ps : List (List Row))
    (hp : fetchPages B rows = p :: ps) (hg : getTable tgt name = none) :
    (runTables bad B ((name, rows) :: rest) tgt).1 = tgt := by
  rw [runTables_cons_missing bad B name rows rest tgt p ps hp hg]

theorem runTables_missing_tr (bad : Row → Bool) (B : Nat) (name : String)
    (rows : List Row) (rest : List (String × List Row)) (tgt : Tgt)
    (p : List Row) (ps : List (List Row))
    (hp : fetchPages B rows = p :: ps) (hg : getTable tgt name = none) :
    (runTables bad B ((name, rows) :: rest) tgt).2.1 = [.ins name p] := by
  rw [runTables_cons_missing bad B name rows rest tgt p ps hp hg]

theorem runTables_missing_err (bad : Row → Bool) (B : Nat) (name : String)
    (rows : List Row) (rest : List (String × List Row)) (tgt : Tgt)
    (p : List Row) (ps : List (List Row))
    (hp : fetchPages B rows = p :: ps) (hg : getTable tgt name = none) :
    (runTables bad B ((name, rows) :: rest) tgt).2.2 = true := by
  rw [runTables_cons_missing bad B name rows rest tgt p ps hp hg]

theorem runTables_err_fst (bad : Row → Bool) (B : Nat) (name : String)
    (rows : List Row) (rest : List (String × List Row)) (tgt : Tgt)
    (p : List Row) (ps : List (List Row)) (t : List Row)
    (hp : fetchPages B rows = p :: ps) (hg : getTable tgt name = some t)
    (he : (runPages bad name t (p :: ps)).2.2 = true) :
    (runTables bad B ((name, rows) :: rest) tgt).1 =
      setTable tgt name (runPages bad name t (p :: ps)).1 := by
  rw [runTables_cons_err bad B name rows rest tgt p ps t hp hg he]

theorem runTables_err_tr (bad : Row → Bool) (B : Nat) (name : String)
    (rows : List Row) (rest : List (String × List Row)) (tgt : Tgt)
    (p : List Row) (ps : List (List Row)) (t : List Row)
    (hp : fetchPages B rows = p :: ps) (hg : getTable tgt name = some t)
    (he : (runPages bad name t (p :: ps)).2.2 = true) :
    (runTables bad B ((name, rows) :: rest) tgt).2.1 =
      (runPages bad name t (p :: ps)).2.1 := by
  rw [runTables_cons_err bad B name rows rest tgt p ps t hp hg he]

theorem runTables_err_err (bad : Row → Bool) (B : Nat) (name : String)
    (rows : List Row) (rest : List (String × List Row)) (tgt : Tgt)
    (p : List Row) (ps : List (List Row)) (t : List Row)
    (hp : fetchPages B rows = p :: ps) (hg : getTable tgt name = some t)
    (he : (runPages bad name t (p :: ps)).2.2 = true) :
    (runTables bad B ((name, rows) :: rest) tgt).2.2 = true := by
  rw [runTables_cons_err bad B name rows rest tgt p ps t hp hg he]

theorem runTables_ok_fst (bad : Row → Bool) (B : Nat) (name : String)
    (rows : List Row) (rest : List (String × List Row)) (tgt : Tgt)
    (p : List Row) (ps : List (List Row)) (t : List Row)
    (hp : fetchPages B rows = p :: ps) (hg : getTable tgt name = some t)
    (he : (runPages bad name t (p :: ps)).2.2 = false) :
    (runTables bad B ((name, rows) :: rest) tgt).1 =
      (runTables bad B rest (setTable tgt name (runPages bad name t (p :: ps)).1)).1 := by
  rw [runTables_cons_ok bad B name rows rest tgt p ps t hp hg he]

theorem runTables_ok_tr (bad : Row → Bool) (B : Nat) (name : String)
    (rows : List Row) (rest : List (String × List Row)) (tgt : Tgt)
    (p : List Row) (ps : List (List Row)) (t : List Row)
    (hp : fetchPages B rows = p :: ps) (hg : getTable tgt name = some t)
    (he : (runPages bad name t (p :: ps)).2.2 = false) :
    (runTables bad B ((name, rows) :: rest) tgt).2.1 =
      (runPages bad name t (p :: ps)).2.1 ++
        .summary name ((p :: ps).flatten.length) ::
          (runTables bad B rest (setTable tgt name (runPages bad name t (p :: ps)).1)).2.1 := by
  rw [runTables_cons_ok bad B name rows rest tgt p ps t hp hg he]

theorem runTables_ok_err (bad : Row → Bool) (B : Nat) (name : String)
    (rows : List Row) (rest : List (String × List Row)) (tgt : Tgt)
    (p : List Row) (ps : List (List Row)) (t : List Row)
    (hp : fetchPages B rows = p :: ps) (hg : getTable tgt name = some t)
    (he : (runPages bad name t (p :: ps)).2.2 = false) :
    (runTables bad B ((name, rows) :: rest) tgt).2.2 =
      (runTables bad B rest (setTable tgt name (runPages bad name t (p :: ps)).1)).2.2 := by
  rw [runTables_cons_ok bad B name rows rest tgt p ps t hp hg he]

/-- Re-running the table loop on its own result state is a no-op with
the same error outcome, provided each table of the run starts either
from its original state or from its final state.  This is the core of
the idempotence of the full process. -/
theorem runTables_replay (bad : Row → Bool) (B : Nat) :
    ∀ (src : List (String × List Row)) (A C : Tgt),
      (src.map Prod.fst).Nodup →
      (∀ n ∈ src.map Prod.fst,
        getTable C n = getTable A n ∨
          getTable C n = getTable (runTables bad B src A).1 n) →
      (runTables bad B src C).2.2 = (runTables bad B src A).2.2 ∧
        ∀ n, getTable (runTables bad B src C).1 n =
          if n ∈ src.map Prod.fst then getTable (runTables bad B src A).1 n
          else getTable C n := by
  intro src
  induction src with
  | nil =>
    intro A C _ _
    exact ⟨rfl, fun n => by simp [runTables_nil]⟩
  | cons hd rest ih =>
    intro A C hnd hhyp
    obtain ⟨name, rows⟩ := hd
    simp only [List.map_cons, List.nodup_cons] at hnd
    obtain ⟨hname, hndrest⟩ := hnd
    cases hp : fetchPages B rows with
    | nil =>
      have hCA : getTable C name = getTable A name := by
        rcases hhyp name (by simp) with h | h
        · exact h
        · rw [h, runTables_empty_fst bad B name rows rest A hp,
              runTables_frame bad B rest A name hname]
      have hhyp2 : ∀ n ∈ rest.map Prod.fst,
          getTable C n = getTable A n ∨
            getTable C n = getTable (runTables bad B rest A).1 n := by
        intro n hn
        rcases hhyp n (by simp [hn]) with h | h
        · exact Or.inl h
        · rw [h, runTables_empty_fst bad B name rows rest A hp]
          exact Or.inr rfl
      obtain ⟨ihflag, ihpt⟩ := ih A C hndrest hhyp2
      constructor
      · rw [runTables_empty_err bad B name rows rest C hp,
            runTables_empty_err bad B name rows rest A hp]
        exact ihflag
      · intro n
        rw [runTables_empty_fst bad B name rows rest C hp, ihpt n,
            runTables_empty_fst bad B name rows rest A hp]
        by_cases hnr : n ∈ rest.map Prod.fst
        · rw [if_pos hnr, if_pos (by simp [hnr])]
        · rw [if_neg hnr]
          by_cases hn1 : n = name
          · subst hn1
            rw [if_pos (by simp), runTables_frame bad B rest A n hname, hCA]
          · rw [if_neg (by simp [hn1, hnr])]
    | cons p ps =>
      cases hg : getTable A name with
      | none =>
        have hgC : getTable C name = none := by
          rcases hhyp name (by simp) with h | h
          · rw [h, hg]
          · rw [h, runTables_missing_fst bad B name rows rest A p ps hp hg, hg]
        constructor
        · rw [runTables_missing_err bad B name rows rest C p ps hp hgC,
              runTables_missing_err bad B name rows rest A p ps hp hg]
        · intro n
          rw [runTables_missing_fst bad B name rows rest C p ps hp hgC]
          by_cases hn : n ∈ List.map Prod.fst ((name, rows) :: rest)
          · rw [if_pos hn, runTables_missing_fst bad B name rows rest A p ps hp hg]
            rcases hhyp n hn with h | h
            · exact h
            · rw [h, runTables_missing_fst bad B name rows rest A p ps hp hg]
          · rw [if_neg hn]
      | some t =>
        rcases hRA : runPages bad name t (p :: ps) with ⟨t1, tr1, e1⟩
        cases e1 with
        | true =>
          have h1fst : (runTables bad B ((name, rows) :: rest) A).1 =
              setTable A name t1 := by
            rw [runTables_err_fst bad B name rows rest A p ps t hp hg (by rw [hRA]), hRA]
          have hgCor : getTable C name = some t ∨ getTable C name = some t1 := by
            rcases hhyp name (by simp) with h | h
            · left; rw [h, hg]
            · right
              rw [h, h1fst]
              exact getTable_setTable_self name t1 A t hg
          obtain ⟨tC, hgC, hrpC⟩ : ∃ tC, getTable C name = some tC ∧
              runPages bad name tC (p :: ps) = (t1, tr1, true) := by
            rcases hgCor with h | h
            · exact ⟨t, h, hRA⟩
            · exact ⟨t1, h, runPages_replay bad name (p :: ps) t t1 tr1 true hRA⟩
          have hCfst : (runTables bad B ((name, rows) :: rest) C).1 =
              setTable C name t1 := by
            rw [runTables_err_fst bad B name rows rest C p ps tC hp hgC (by rw [hrpC]), hrpC]
          constructor
          · rw [runTables_err_err bad B name rows rest C p ps tC hp hgC (by rw [hrpC]),
                runTables_err_err bad B name rows rest A p ps t hp hg (by rw [hRA])]
          · intro n
            rw [hCfst, h1fst]
            by_cases hn1 : n = name
            · subst hn1
              rw [if_pos (by simp), getTable_setTable_self n t1 C tC hgC,
                  getTable_setTable_self n t1 A t hg]
            · rw [getTable_setTable_ne name n t1 hn1 C]
              by_cases hn : n ∈ List.map Prod.fst ((name, rows) :: rest)
              · rw [if_pos hn, getTable_setTable_ne name n t1 hn1 A]
                rcases hhyp n hn with h | h
                · exact h
                · rw [h, h1fst, getTable_setTable_ne name n t1 hn1 A]
              · rw [if_neg hn]
        | false =>
          have h1fst : (runTables bad B ((name, rows) :: rest) A).1 =
              (runTables bad B rest (setTable A name t1)).1 := by
            rw [runTables_ok_fst bad B name rows rest A p ps t hp hg (by rw [hRA]), hRA]
          have hgCor : getTable C name = some t ∨ getTable C name = some t1 := by
            rcases hhyp name (by simp) with h | h
            · left; rw [h, hg]
            · right
              rw [h, h1fst, runTables_frame bad B rest (setTable A name t1) name hname]
              exact getTable_setTable_self name t1 A t hg
          obtain ⟨tC, hgC, hrpC⟩ : ∃ tC, getTable C name = some tC ∧
              runPages bad name tC (p :: ps) = (t1, tr1, false) := by
            rcases hgCor with h | h
            · exact ⟨t, h, hRA⟩
            · exact ⟨t1, h, runPages_replay bad name (p :: ps) t t1 tr1 false hRA⟩
          have hCfst : (runTables bad B ((name, rows) :: rest) C).1 =
              (runTables bad B rest (setTable C name t1)).1 := by
            rw [runTables_ok_fst bad B name rows rest C p ps tC hp hgC (by rw [hrpC]), hrpC]
          have hhyp2 : ∀ n ∈ rest.map Prod.fst,
              getTable (setTable C name t1) n = getTable (setTable A name t1) n ∨
                getTable (setTable C name t1) n =
                  getTable (runTables bad B rest (setTable A name t1)).1 n := by
            intro n hn
            have hn1 : n ≠ name := fun hcon => hname (hcon ▸ hn)
            rw [getTable_setTable_ne name n t1 hn1 C, getTable_setTable_ne name n t1 hn1 A]
            rcases hhyp n (by simp [hn]) with h | h
            · exact Or.inl h
            · right
              rw [h, h1fst]
          obtain ⟨ihflag, ihpt⟩ := ih (setTable A name t1) (setTable C name t1) hndrest hhyp2
          constructor
          · rw [runTables_ok_err bad B name rows rest C p ps tC hp hgC (by rw [hrpC]), hrpC,
                runTables_ok_err bad B name rows rest A p ps t hp hg (by rw [hRA]), hRA]
            exact ihflag
          · intro n
            rw [hCfst, ihpt n, h1fst]
            by_cases hnr : n ∈ rest.map Prod.fst
            · rw [if_pos hnr, if_pos (by simp [hnr])]
            · rw [if_neg hnr]
              by_cases hn1 : n = name
              · subst hn1
                rw [if_pos (by simp), getTable_setTable_self n t1 C tC hgC,
                    runTables_frame bad B rest (setTable A n t1) n hname,
                    getTable_setTable_self n t1 A t hg]
              · rw [if_neg (by simp [hn1, hnr]), getTable_setTable_ne name n t1 hn1 C]

/-! ## Lemmas about the schema reset -/

theorem strContains_iff (l : List String) (x : String) :
    l.contains x = true ↔ x ∈ l := by
  simp [List.contains, List.elem_iff]

theorem getTable_append_some (n : String) (v : List Row) :
    ∀ (a b : Tgt), getTable a n = some v → getTable (a ++ b) n = some v := by
  intro a
  induction a with
  | nil => intro b h; simp [getTable] at h
  | cons hd tl ih =>
    intro b h
    obtain ⟨m, t⟩ := hd
    by_cases hm : m = n
    · subst hm
      simp only [getTable, if_pos rfl] at h
      simpa [List.cons_append, getTable] using h
    · simp only [getTable, if_neg hm] at h
      simpa [List.cons_append, getTable, if_neg hm] using ih b h

theorem getTable_append_none (n : String) :
    ∀ (a b : Tgt), getTable a n = none → getTable (a ++ b) n = getTable b n := by
  intro a
  induction a with
  | nil => intro b _; rfl
  | cons hd tl ih =>
    intro b h
    obtain ⟨m, t⟩ := hd
    by_cases hm : m = n
    · subst hm; simp [getTable] at h
    · simp only [getTable, if_neg hm] at h
      simpa [List.cons_append, getTable, if_neg hm] using ih b h

theorem getTable_map_empty (m : String) :
    ∀ (l : List String),
      getTable (l.map (fun n => (n, ([] : List Row)))) m =
        if m ∈ l then some [] else none := by
  intro l
  induction l with
  | nil => simp [getTable]
  | cons x l ih =>
    by_cases hx : x = m
    · subst hx
      simp [getTable, ih]
    · simp only [List.map_cons, getTable, if_neg hx, ih]
      by_cases hm : m ∈ l
      · rw [if_pos hm, if_pos (by simp [hm])]
      · have hmx : m ∉ x :: l := by
          simp only [List.mem_cons, hm, or_false]
          exact fun h => hx h.symm
        rw [if_neg hm, if_neg hmx]

theorem getTable_dropSix_mem (n : String) (hn : n ∈ sixTables) :
    ∀ (tgt : Tgt), getTable (dropSix tgt) n = none := by
  intro tgt
  induction tgt with
  | nil => rfl
  | cons hd tl ih =>
    obtain ⟨m, t⟩ := hd
    by_cases hm : m ∈ sixTables
    · rw [show dropSix ((m, t) :: tl) = dropSix tl from by simp [dropSix, hm]]
      exact ih
    · have hmne : m ≠ n := fun hcon => hm (hcon ▸ hn)
      rw [show dropSix ((m, t) :: tl) = (m, t) :: dropSix tl from by simp [dropSix, hm]]
      rw [show getTable ((m, t) :: dropSix tl) n = getTable (dropSix tl) n from by
        simp [getTable, hmne]]
      exact ih

theorem getTable_dropSix_notmem (n : String) (hn : n ∉ sixTables) :
    ∀ (tgt : Tgt), getTable (dropSix tgt) n = getTable tgt n := by
  intro tgt
  induction tgt with
  | nil => rfl
  | cons hd tl ih =>
    obtain ⟨m, t⟩ := hd
    by_cases hm : m ∈ sixTables
    · have hmne : m ≠ n := fun hcon => hn (hcon ▸ hm)
      rw [show dropSix ((m, t) :: tl) = dropSix tl from by simp [dropSix, hm]]
      rw [show getTable ((m, t) :: tl) n = getTable tl n from by simp [getTable, hmne]]
      exact ih
    · rw [show dropSix ((m, t) :: tl) = (m, t) :: dropSix tl from by simp [dropSix, hm]]
      by_cases hmn : m = n
      · subst hmn
        simp [getTable]
      · rw [show getTable ((m, t) :: dropSix tl) n = getTable (dropSix tl) n from by
          simp [getTable, hmn]]
        rw [show getTable ((m, t) :: tl) n = getTable tl n from by simp [getTable, hmn]]
        exact ih

theorem getTable_resetTgt (tgt : Tgt) (n : String) :
    getTable (resetTgt tgt) n =
      if n ∈ sixTables then some [] else getTable tgt n := by
  unfold resetTgt
  by_cases hn : n ∈ sixTables
  · rw [if_pos hn, getTable_append_none n _ _ (getTable_dropSix_mem n hn tgt),
        getTable_map_empty n sixTables, if_pos hn]
  · rw [if_neg hn]
    cases hx : getTable tgt n with
    | none =>
      rw [getTable_append_none n _ _ (by rw [getTable_dropSix_notmem n hn tgt, hx]),
          getTable_map_empty n sixTables, if_neg hn]
    | some v =>
      exact getTable_append_some n v _ _ (by rw [getTable_dropSix_notmem n hn tgt, hx])

/-! ## Claim C2 -/

/-- C2: Idempotence of the full process.  Running the entire entry-point
sequence (schema reset via `STAGING_CREATE_SQL`, then the paged transfer
over all source tables) twice in succession leaves the target with
exactly the same tables and rows as running it once, and with the same
error outcome, for every source database (whose catalog lists each table
name once) and every target state. -/
theorem c2_full_run_idempotent (bad : Row → Bool) (B : Nat)
    (src : List (String × List Row)) (tgt : Tgt)
    (hnd : (src.map Prod.fst).Nodup) :
    (fullRun bad B src (fullRun bad B src tgt).1).2 = (fullRun bad B src tgt).2 ∧
      ∀ n, getTable (fullRun bad B src (fullRun bad B src tgt).1).1 n =
        getTable (fullRun bad B src tgt).1 n := by
  have hyp : ∀ n ∈ src.map Prod.fst,
      getTable (resetTgt (fullRun bad B src tgt).1) n = getTable (resetTgt tgt) n ∨
        getTable (resetTgt (fullRun bad B src tgt).1) n =
          getTable (runTables bad B src (resetTgt tgt)).1 n := by
    intro n _
    by_cases hsix : n ∈ sixTables
    · left
      rw [getTable_resetTgt, getTable_resetTgt, if_pos hsix, if_pos hsix]
    · right
      rw [getTable_resetTgt, if_neg hsix]
      rfl
  obtain ⟨hflag, hpt⟩ := runTables_replay bad B src (resetTgt tgt)
      (resetTgt (fullRun bad B src tgt).1) hnd hyp
  constructor
  · exact hflag
  · intro n
    have hthis := hpt n
    show getTable (runTables bad B src (resetTgt (fullRun bad B src tgt).1)).1 n =
        getTable (runTables bad B src (resetTgt tgt)).1 n
    by_cases hn : n ∈ src.map Prod.fst
    · rw [if_pos hn] at hthis
      exact hthis
    · rw [if_neg hn] at hthis
      rw [hthis, getTable_resetTgt]
      by_cases hsix : n ∈ sixTables
      · rw [if_pos hsix,
            runTables_frame bad B src (resetTgt tgt) n hn,
            getTable_resetTgt, if_pos hsix]
      · rw [if_neg hsix]
        rfl

/-- Witness for C2 at a concrete source and target: a two-table source
(one staging table, one extra table also present in the target). -/
theorem c2_witness :
    (fullRun (fun _ => false) 1 [("Region", [⟨1, [10]⟩]), ("Extra", [⟨2, [5]⟩])]
        (fullRun (fun _ => false) 1 [("Region", [⟨1, [10]⟩]), ("Extra", [⟨2, [5]⟩])]
          [("Extra", [])]).1).2 =
      (fullRun (fun _ => false) 1 [("Region", [⟨1, [10]⟩]), ("Extra", [⟨2, [5]⟩])]
        [("Extra", [])]).2 ∧
    getTable (fullRun (fun _ => false) 1
        [("Region", [⟨1, [10]⟩]), ("Extra", [⟨2, [5]⟩])]
        (fullRun (fun _ => false) 1 [("Region", [⟨1, [10]⟩]), ("Extra", [⟨2, [5]⟩])]
          [("Extra", [])]).1).1 "Region" =
      getTable (fullRun (fun _ => false) 1
        [("Region", [⟨1, [10]⟩]), ("Extra", [⟨2, [5]⟩])] [("Extra", [])]).1 "Region" ∧
    getTable (fullRun (fun _ => false) 1
        [("Region", [⟨1, [10]⟩]), ("Extra", [⟨2, [5]⟩])]
        (fullRun (fun _ => false) 1 [("Region", [⟨1, [10]⟩]), ("Extra", [⟨2, [5]⟩])]
          [("Extra", [])]).1).1 "Extra" =
      getTable (fullRun (fun _ => false) 1
        [("Region", [⟨1, [10]⟩]), ("Extra", [⟨2, [5]⟩])] [("Extra", [])]).1 "Extra" := by
  have h := c2_full_run_idempotent (fun _ => false) 1
    [("Region", [⟨1, [10]⟩]), ("Extra", [⟨2, [5]⟩])] [("Extra", [])] (by decide)
  exact ⟨h.1, h.2 "Region", h.2 "Extra"⟩

/-! ## Claim C1 -/

theorem insertPageE_append (bad : Row → Bool) (t : List Row) (l1 l2 : List Row) :
    insertPageE bad t (l1 ++ l2) =
      insertPageE bad t l1 >>= fun t1 => insertPageE bad t1 l2 := by
  simp only [insertPageE, List.foldlM_append]

theorem insertPagesE_eq_flatten (bad : Row → Bool) :
    ∀ (ps : List (List Row)) (t : List Row),
      insertPagesE bad t ps = insertPageE bad t ps.flatten := by
  intro ps
  induction ps with
  | nil => intro t; rfl
  | cons p ps ih =>
    intro t
    simp only [insertPagesE, List.foldlM_cons, List.flatten_cons, insertPageE_append]
    cases hx : insertPageE bad t p with
    | error e => rw [exceptBind_error, exceptBind_error]
    | ok t1 =>
      rw [exceptBind_ok, exceptBind_ok]
      exact ih t1

theorem insertPageE_keys_source (bad : Row → Bool) (p t t1 : List Row)
    (h : insertPageE bad t p = .ok t1) :
    ∀ k ∈ keys t1, k ∈ keys t ∨ k ∈ p.map Row.key := by
  intro k hk
  obtain ⟨x, hx, hxk⟩ := List.mem_map.mp hk
  rcases (insertPageE_props bad p t t1 h).2.2.2 x hx with hmem | hmem
  · left; rw [← hxk]; exact List.mem_map_of_mem Row.key hmem
  · right; rw [← hxk]; exact List.mem_map_of_mem Row.key hmem

theorem insertPageE_first_insert (bad : Row → Bool)
    (l1 : List Row) (r : Row) (l2 : List Row) (t t' : List Row)
    (h : insertPageE bad t (l1 ++ r :: l2) = .ok t')
    (hk : r.key ∉ keys t) (hl1 : ∀ x ∈ l1, x.key ≠ r.key) : r ∈ t' := by
  rw [insertPageE_append] at h
  cases hx : insertPageE bad t l1 with
  | error e => rw [hx, exceptBind_error] at h; simp at h
  | ok t1 =>
    rw [hx, exceptBind_ok] at h
    have hk1 : r.key ∉ keys t1 := by
      intro hmem
      rcases insertPageE_keys_source bad l1 t t1 hx r.key hmem with hc | hc
      · exact hk hc
      · obtain ⟨x, hx1, hx2⟩ := List.mem_map.mp hc
        exact hl1 x hx1 hx2
    simp only [insertPageE, List.foldlM_cons] at h
    cases hrr : insertRowE bad t1 r with
    | error e => rw [hrr, exceptBind_error] at h; simp at h
    | ok t2 =>
      rw [hrr, exceptBind_ok] at h
      rcases insertRowE_ok_cases bad t1 r t2 hrr with ⟨_, hmem⟩ | ⟨he, _, _⟩
      · exact absurd hmem hk1
      · subst he
        exact (insertPageE_props bad l2 _ t' h).1 r (by simp)

/-- C1 (amended): content preservation.  After a run of the transfer
loop over the enumerated source tables that completes without an
exception, for every source table and every row whose key is not
already present in the corresponding target table before the run,
provided the source table's keys are pairwise distinct (as primary keys
are) and the batch size is positive, that row appears in the target
table of the same name with identical column values. -/
theorem c1_content_preservation (bad : Row → Bool) (B : Nat) (hB : 0 < B) :
    ∀ (src : List (String × List Row)) (tgt tgt' : Tgt) (tr : List Ev),
      runTables bad B src tgt = (tgt', tr, false) →
      (src.map Prod.fst).Nodup →
      ∀ (name : String) (rows : List Row), (name, rows) ∈ src →
        (rows.map Row.key).Nodup →
        ∀ r ∈ rows, (∀ t0, getTable tgt name = some t0 → r.key ∉ keys t0) →
          ∃ tf, getTable tgt' name = some tf ∧ r ∈ tf := by
  intro src
  induction src with
  | nil =>
    intro tgt tgt' tr _ _ name rows hmem
    simp at hmem
  | cons hd rest ih =>
    intro tgt tgt' tr hrun hnd name rows hmem hkeys r hr hfresh
    obtain ⟨n0, rows0⟩ := hd
    simp only [List.map_cons, List.nodup_cons] at hnd
    obtain ⟨hn0, hndrest⟩ := hnd
    cases hp : fetchPages B rows0 with
    | nil =>
      have hrows0 : rows0 = [] := (fetchPages_eq_nil_iff B hB rows0).mp hp
      have h1 : (runTables bad B rest tgt).1 = tgt' := by
        rw [← runTables_empty_fst bad B n0 rows0 rest tgt hp, hrun]
      have h2 : (runTables bad B rest tgt).2.2 = false := by
        rw [← runTables_empty_err bad B n0 rows0 rest tgt hp, hrun]
      rcases List.mem_cons.mp hmem with hhead | htail
      · obtain ⟨hn, hrw⟩ := Prod.mk.injEq _ _ _ _ ▸ hhead
        subst hn; subst hrw
        rw [hrows0] at hr
        simp at hr
      · exact ih tgt tgt' (runTables bad B rest tgt).2.1 (by rw [← h1, ← h2]) hndrest
          name rows htail hkeys r hr hfresh
    | cons p ps =>
      cases hg : getTable tgt n0 with
      | none =>
        have hcon := runTables_missing_err bad B n0 rows0 rest tgt p ps hp hg
        rw [hrun] at hcon
        simp at hcon
      | some t =>
        cases he : (runPages bad n0 t (p :: ps)).2.2 with
        | true =>
          have hcon := runTables_err_err bad B n0 rows0 rest tgt p ps t hp hg he
          rw [hrun] at hcon
          simp at hcon
        | false =>
          have h1 : (runTables bad B rest
              (setTable tgt n0 (runPages bad n0 t (p :: ps)).1)).1 = tgt' := by
            rw [← runTables_ok_fst bad B n0 rows0 rest tgt p ps t hp hg he, hrun]
          have h2 : (runTables bad B rest
              (setTable tgt n0 (runPages bad n0 t (p :: ps)).1)).2.2 = false := by
            rw [← runTables_ok_err bad B n0 rows0 rest tgt p ps t hp hg he, hrun]
          rcases List.mem_cons.mp hmem with hhead | htail
          · obtain ⟨hn, hrw⟩ := Prod.mk.injEq _ _ _ _ ▸ hhead
            subst hn; subst hrw
            refine ⟨(runPages bad name t (p :: ps)).1, ?_, ?_⟩
            · rw [← h1, runTables_frame bad B rest _ name hn0]
              exact getTable_setTable_self name _ tgt t hg
            · obtain ⟨hpages, _⟩ := runPages_ok_trace bad name (p :: ps) t
                (runPages bad name t (p :: ps)).1 (runPages bad name t (p :: ps)).2.1
                (by rw [← he])
              rw [insertPagesE_eq_flatten] at hpages
              have hflat : (p :: ps).flatten = rows := by
                rw [← hp]; exact fetchPages_flatten B hB rows
              rw [hflat] at hpages
              obtain ⟨l1, l2, hsplit⟩ := List.append_of_mem hr
              rw [hsplit] at hpages
              apply insertPageE_first_insert bad l1 r l2 t _ hpages (hfresh t hg)
              intro x hx hxk
              rw [hsplit, List.map_append, List.map_cons] at hkeys
              obtain ⟨_, _, hdisj⟩ := List.nodup_append.mp hkeys
              exact hdisj (hxk ▸ List.mem_map_of_mem Row.key hx)
                (List.mem_cons_self _ _)
          · have hne : name ≠ n0 := by
              intro hcon
              subst hcon
              exact hn0 (List.mem_map_of_mem Prod.fst htail)
            refine ih _ tgt' (runTables bad B rest
                (setTable tgt n0 (runPages bad n0 t (p :: ps)).1)).2.1
              (by rw [← h1, ← h2]) hndrest name rows htail hkeys r hr ?_
            intro t0 ht0
            rw [getTable_setTable_ne n0 name _ hne tgt] at ht0
            exact hfresh t0 ht0

/-- C1 counterexample to the claim as stated: a source table may hold
two rows with the same key.  The run completes without an exception,
the second row's key (1) is not present in the target before the run,
yet the final target table is exactly the first row — the second row
with key 1 never appears, because `ON CONFLICT DO NOTHING` keeps only
the first row bearing a key. -/
theorem c1_counterexample :
    (runTables (fun _ => false) 25000
        [("t", [⟨1, [10]⟩, ⟨1, [20]⟩])] [("t", [])]).2.2 = false ∧
      (keys ([] : List Row)).contains (⟨1, [20]⟩ : Row).key = false ∧
      getTable (runTables (fun _ => false) 25000
        [("t", [⟨1, [10]⟩, ⟨1, [20]⟩])] [("t", [])]).1 "t" = some [⟨1, [10]⟩] ∧
      ([⟨1, [10]⟩] : List Row).contains ⟨1, [20]⟩ = false := by decide

/-- Witness for the amended C1 at a concrete run: a three-row source
table transferred with batch size 2 into a target that already holds an
unrelated row; the middle source row appears in the final target. -/
theorem c1_witness :
    ∃ tf, getTable ([("t", [⟨9, [0]⟩, ⟨1, [5]⟩, ⟨2, [6]⟩, ⟨3, [7]⟩])] : Tgt) "t" =
        some tf ∧ (⟨2, [6]⟩ : Row) ∈ tf :=
  c1_content_preservation (fun _ => false) 2 (by decide)
    [("t", [⟨1, [5]⟩, ⟨2, [6]⟩, ⟨3, [7]⟩])] [("t", [⟨9, [0]⟩])]
    [("t", [⟨9, [0]⟩, ⟨1, [5]⟩, ⟨2, [6]⟩, ⟨3, [7]⟩])]
    [.ins "t" [⟨1, [5]⟩, ⟨2, [6]⟩], .com, .ins "t" [⟨3, [7]⟩], .com, .summary "t" 3]
    (by decide) (by decide) "t" [⟨1, [5]⟩, ⟨2, [6]⟩, ⟨3, [7]⟩] (by decide) (by decide)
    ⟨2, [6]⟩ (by decide)
    (by
      intro t0 ht0
      have hg : getTable ([("t", [⟨9, [0]⟩])] : Tgt) "t" = some [⟨9, [0]⟩] := by decide
      rw [hg] at ht0
      injection ht0 with h
      rw [← h]
      decide)

/-! ## Claim C3 -/

theorem trace_countIns (name : String) :
    ∀ ps : List (List Row),
      ((ps.flatMap fun p => [Ev.ins name p, Ev.com]).countP Ev.isIns) = ps.length := by
  intro ps
  induction ps with
  | nil => rfl
  | cons p ps ih =>
    simp only [List.flatMap_cons, List.cons_append, List.nil_append,
      List.countP_cons, ih, Ev.isIns]
    rfl

theorem trace_countCom (name : String) :
    ∀ ps : List (List Row),
      ((ps.flatMap fun p => [Ev.ins name p, Ev.com]).countP Ev.isCom) = ps.length := by
  intro ps
  induction ps with
  | nil => rfl
  | cons p ps ih =>
    simp only [List.flatMap_cons, List.cons_append, List.nil_append,
      List.countP_cons, ih, Ev.isCom]
    rfl

theorem trace_ins_mem (name : String) :
    ∀ (ps : List (List Row)) (nm : String) (p : List Row),
      Ev.ins nm p ∈ (ps.flatMap fun q => [Ev.ins name q, Ev.com]) → p ∈ ps := by
  intro ps
  induction ps with
  | nil => intro nm p h; simp at h
  | cons q ps ih =>
    intro nm p h
    simp only [List.flatMap_cons, List.cons_append, List.nil_append,
      List.mem_cons] at h
    rcases h with h | h | h
    · injection h with h1 h2
      rw [h2]
      exact List.mem_cons_self _ _
    · exact absurd h (by simp)
    · exact List.mem_cons_of_mem _ (ih nm p h)

/-- C3: Batching arithmetic.  For a table with `rows` and batch size
`B > 0`, a run of the page loop that completes without an exception
issues exactly `⌈rows.length / B⌉` insert calls, each carrying at most
`B` rows (and none empty), with the trace alternating insert/commit, so
the number of commits equals the number of insert calls. -/
theorem c3_batching (bad : Row → Bool) (name : String) (B : Nat) (rows : List Row)
    (t t' : List Row) (tr : List Ev) (hB : 0 < B)
    (h : runPages bad name t (fetchPages B rows) = (t', tr, false)) :
    tr = (fetchPages B rows).flatMap (fun p => [Ev.ins name p, Ev.com]) ∧
      tr.countP Ev.isIns = (rows.length + B - 1) / B ∧
      tr.countP Ev.isCom = (rows.length + B - 1) / B ∧
      ∀ nm p, Ev.ins nm p ∈ tr → p ≠ [] ∧ p.length ≤ B := by
  obtain ⟨_, htr⟩ := runPages_ok_trace bad name (fetchPages B rows) t t' tr h
  refine ⟨htr, ?_, ?_, ?_⟩
  · rw [htr, trace_countIns name, fetchPages_length B hB rows]
  · rw [htr, trace_countCom name, fetchPages_length B hB rows]
  · intro nm p hmem
    rw [htr] at hmem
    exact fetchPages_mem B rows p (trace_ins_mem name (fetchPages B rows) nm p hmem)

/-- Witness for C3: the spec's scenario — 5 rows, batch size 2 — yields
exactly 3 insert calls of sizes 2, 2, 1 and 3 commits. -/
theorem c3_witness :
    ([Ev.ins "OrderDetail" [⟨1, [1]⟩, ⟨2, [2]⟩], Ev.com,
      Ev.ins "OrderDetail" [⟨3, [3]⟩, ⟨4, [4]⟩], Ev.com,
      Ev.ins "OrderDetail" [⟨5, [5]⟩], Ev.com] : List Ev) =
      (fetchPages 2 [⟨1, [1]⟩, ⟨2, [2]⟩, ⟨3, [3]⟩, ⟨4, [4]⟩, ⟨5, [5]⟩]).flatMap
        (fun p => [Ev.ins "OrderDetail" p, Ev.com]) ∧
    ([Ev.ins "OrderDetail" [⟨1, [1]⟩, ⟨2, [2]⟩], Ev.com,
      Ev.ins "OrderDetail" [⟨3, [3]⟩, ⟨4, [4]⟩], Ev.com,
      Ev.ins "OrderDetail" [⟨5, [5]⟩], Ev.com] : List Ev).countP Ev.isIns = 3 ∧
    ([Ev.ins "OrderDetail" [⟨1, [1]⟩, ⟨2, [2]⟩], Ev.com,
      Ev.ins "OrderDetail" [⟨3, [3]⟩, ⟨4, [4]⟩], Ev.com,
      Ev.ins "OrderDetail" [⟨5, [5]⟩], Ev.com] : List Ev).countP Ev.isCom = 3 := by
  have h := c3_batching (fun _ => false) "OrderDetail" 2
    [⟨1, [1]⟩, ⟨2, [2]⟩, ⟨3, [3]⟩, ⟨4, [4]⟩, ⟨5, [5]⟩]
    [] [⟨1, [1]⟩, ⟨2, [2]⟩, ⟨3, [3]⟩, ⟨4, [4]⟩, ⟨5, [5]⟩]
    [Ev.ins "OrderDetail" [⟨1, [1]⟩, ⟨2, [2]⟩], Ev.com,
     Ev.ins "OrderDetail" [⟨3, [3]⟩, ⟨4, [4]⟩], Ev.com,
     Ev.ins "OrderDetail" [⟨5, [5]⟩], Ev.com]
    (by decide) (by decide)
  exact ⟨h.1, h.2.1, h.2.2.1⟩

/-! ## Claim C4 -/

/-- C4: page-commit independence and rollback scope.  If the page loop
raises (a non-duplicate constraint error on some page insert), the
committed state is exactly the effect of all pages strictly before the
failing one — earlier committed pages remain — and every committed row
comes either from the pre-existing table or from those earlier pages;
no row of the failing page or any later page is present. -/
theorem c4_rollback_scope (bad : Row → Bool) (name : String) (B : Nat)
    (rows : List Row) (t t' : List Row) (tr : List Ev)
    (h : runPages bad name t (fetchPages B rows) = (t', tr, true)) :
    ∃ i p, (fetchPages B rows)[i]? = some p ∧
      insertPagesE bad t ((fetchPages B rows).take i) = .ok t' ∧
      insertPageE bad t' p = .error () ∧
      ∀ x ∈ t', x ∈ t ∨ x ∈ ((fetchPages B rows).take i).flatten := by
  obtain ⟨i, p, hip, hok, herr, _⟩ :=
    runPages_err bad name (fetchPages B rows) t t' tr h
  refine ⟨i, p, hip, hok, herr, ?_⟩
  intro x hx
  have hok2 := hok
  rw [insertPagesE_eq_flatten] at hok2
  rcases (insertPageE_props bad _ t t' hok2).2.2.2 x hx with h1 | h1
  · exact Or.inl h1
  · exact Or.inr h1

/-- Witness for C4: batch size 1, two rows, the second violating a
constraint — the first page stays committed, the second raises. -/
theorem c4_witness :
    ∃ i p, (fetchPages 1 [⟨1, [0]⟩, ⟨3, [0]⟩])[i]? = some p ∧
      insertPagesE (fun r => r.key == 3) []
        ((fetchPages 1 [⟨1, [0]⟩, ⟨3, [0]⟩]).take i) = .ok [⟨1, [0]⟩] ∧
      insertPageE (fun r => r.key == 3) [⟨1, [0]⟩] p = .error () := by
  obtain ⟨i, p, h1, h2, h3, _⟩ :=
    c4_rollback_scope (fun r => r.key == 3) "t" 1 [⟨1, [0]⟩, ⟨3, [0]⟩]
      [] [⟨1, [0]⟩] [Ev.ins "t" [⟨1, [0]⟩], Ev.com, Ev.ins "t" [⟨3, [0]⟩]]
      (by decide)
  exact ⟨i, p, h1, h2, h3⟩

/-! ## Claim C8 -/

/-- C8: duplicate-key handling.  A row whose key already exists in the
target is silently skipped — the insert returns the table unchanged,
raising no error (even if inserting the row would have violated another
constraint) — and the remaining rows of the same page are processed
exactly as if the duplicate were absent: the skip is row-granular, not
transaction-wide. -/
theorem c8_duplicate_skip (bad : Row → Bool) (t : List Row) (r : Row) (p : List Row)
    (h : r.key ∈ keys t) :
    insertRowE bad t r = .ok t ∧
      insertPageE bad t (r :: p) = insertPageE bad t p := by
  refine ⟨insertRowE_skip bad t r h, ?_⟩
  simp only [insertPageE, List.foldlM_cons]
  rw [insertRowE_skip bad t r h, exceptBind_ok]

/-- Witness for C8: a page whose first row duplicates an existing key
(and would even be constraint-violating if inserted) and whose second
row is new — the duplicate is skipped, the second row still lands. -/
theorem c8_witness :
    insertRowE (fun r => r.key == 1) [⟨1, [0]⟩] ⟨1, [9]⟩ = .ok [⟨1, [0]⟩] ∧
      insertPageE (fun r => r.key == 1) [⟨1, [0]⟩] [⟨1, [9]⟩, ⟨2, [4]⟩] =
        insertPageE (fun r => r.key == 1) [⟨1, [0]⟩] [⟨2, [4]⟩] :=
  c8_duplicate_skip (fun r => r.key == 1) [⟨1, [0]⟩] ⟨1, [9]⟩ [⟨2, [4]⟩] (by decide)

/-! ## Claims C5, C6, C7, C9 (DDL, module evaluation, entry point) -/

/-- C5 counterexample: the drop sequence does not respect foreign-key
dependency order — `Product` references `ProductCategory`, yet
`ProductCategory` is dropped first (line 12) and `Product` only third
(line 14), so the claimed "Product before ProductCategory" is false. -/
theorem c5_counterexample :
    ("Product", "ProductCategory") ∈ fkEdges ∧
      dropIdx "ProductCategory" < dropIdx "Product" ∧
      dropRespectsFK = false := by decide

/-- C5 (amended): the initializer drops the six tables in source order
ProductCategory, OrderDetail, Product, Customer, Country, Region (with
CASCADE, so the order cannot make the drops fail); every
dependent-before-referent pair holds except Product/ProductCategory;
the same six tables are then recreated, in an order where every
referenced table is created before its dependents, each with its
primary key in its column list, with unique name columns exactly on
Region, Country, ProductCategory and Product, and with the five
declared foreign keys. -/
theorem c5_schema_reset :
    dropOrder = ["ProductCategory", "OrderDetail", "Product",
      "Customer", "Country", "Region"] ∧
    (fkEdges.all fun e => (e == ("Product", "ProductCategory")) ||
      decide (dropIdx e.1 < dropIdx e.2)) = true ∧
    dropIdx "ProductCategory" < dropIdx "Product" ∧
    stagingTables.map TableDef.name =
      ["Region", "Country", "Customer", "ProductCategory", "Product", "OrderDetail"] ∧
    List.Perm dropOrder (stagingTables.map TableDef.name) ∧
    (stagingTables.all fun td => td.columns.contains td.primaryKey) = true ∧
    (stagingTables.all fun td => td.foreignKeys.all fun fk =>
      decide ((stagingTables.map TableDef.name).indexOf fk.refTable <
        (stagingTables.map TableDef.name).indexOf td.name)) = true ∧
    stagingTables.map (fun td => (td.name, td.uniqueCols)) =
      [("Region", ["Region"]), ("Country", ["Country"]), ("Customer", []),
       ("ProductCategory", ["ProductCategory"]), ("Product", ["ProductName"]),
       ("OrderDetail", [])] ∧
    fkEdges = [("Country", "Region"), ("Customer", "Country"),
      ("Product", "ProductCategory"), ("OrderDetail", "Customer"),
      ("OrderDetail", "Product")] := by decide

/-- C6 (code defect): evaluating the module raises `NameError` at
line 70 — the `def connect_databases(sqlite_db, postgres_db =
DATABASE_URL)` line evaluates its default argument at definition time,
but `DATABASE_URL` is first assigned only at line 130 inside the
`__main__` block, so the single entry point fails before any schema
initialization or transfer, on every environment. -/
theorem c6_module_name_error :
    runModule moduleStmts [] = .error ("DATABASE_URL", 70) := rfl

/-- C7 counterexample: the migration does not release its resources on
every exit path.  Whatever happens at connect time and DDL time, the
entry point's schema phase ends with an uncaught exception and the
explicit `close()` calls for the target connection and target cursor
are never reached. -/
theorem c7_counterexample :
    (runMain true true).2 = true ∧
      (runMain true true).1.connPClosed = false ∧
      (runMain true true).1.curPClosed = false := by decide

/-- C7 (amended): `load_sqlite_to_postgres` does close both of its
cursors on every exit path, success or failure, via its
`try`/`finally`; but the entry point releases connections only on its
non-exceptional path, and since its schema phase always aborts (at
worst at the `cur_p.commit()` call), the target connection is never
explicitly closed there on any input. -/
theorem c7_cursor_cleanup :
    (∀ (bad : Row → Bool) (B : Nat) (src : List (String × List Row)) (tgt : Tgt),
      (loadSqliteToPostgres bad B src tgt).2.2.2 = (true, true)) ∧
    ∀ (connectOk ddlOk : Bool),
      (runMain connectOk ddlOk).2 = true ∧
        (runMain connectOk ddlOk).1.connPClosed = false := by
  constructor
  · intro bad B src tgt; rfl
  · intro c d
    cases c <;> cases d <;> exact ⟨rfl, rfl⟩

/-- C9: startup connection failure is fatal.  When connecting fails,
`connect_databases` returns `None`, the unpacking in the entry point
raises before any DDL statement or row transfer, and the run aborts
with no schema change and no transfer. -/
theorem c9_connection_failure_fatal (ddlOk : Bool) :
    (runMain false ddlOk).1.ddlExecuted = false ∧
      (runMain false ddlOk).1.ddlCommitted = false ∧
      (runMain false ddlOk).1.transferRan = false ∧
      (runMain false ddlOk).2 = true :=
  ⟨rfl, rfl, rfl, rfl⟩

/-! ## Claim C10 -/

/-- Every `execute_values` event in a trace carries a non-empty page. -/
def insNonempty (tr : List Ev) : Bool :=
  tr.all fun ev =>
    match ev with
    | .ins _ p => !p.isEmpty
    | _ => true

theorem insNonempty_append (a b : List Ev) :
    insNonempty (a ++ b) = (insNonempty a && insNonempty b) := by
  simp [insNonempty, List.all_append]

theorem runPages_insNonempty (bad : Row → Bool) (name : String) :
    ∀ (ps : List (List Row)) (t : List Row), (∀ p ∈ ps, p ≠ []) →
      insNonempty ((runPages bad name t ps).2.1) = true := by
  intro ps
  induction ps with
  | nil => intro t _; rfl
  | cons p ps ih =>
    intro t hps
    cases hres : insertPageE bad t p with
    | error e =>
      rw [runPages_cons_err bad name t p ps e hres]
      simp [insNonempty, List.isEmpty_iff, hps p (List.mem_cons_self _ _)]
    | ok t1 =>
      rw [runPages_cons_ok bad name t t1 p ps hres]
      have hrec := ih t1 (fun q hq => hps q (List.mem_cons_of_mem _ hq))
      simp only [insNonempty, List.all_cons] at hrec ⊢
      simp [hrec, List.isEmpty_iff, hps p (List.mem_cons_self _ _)]

theorem runTables_insNonempty (bad : Row → Bool) (B : Nat) :
    ∀ (src : List (String × List Row)) (tgt : Tgt),
      insNonempty ((runTables bad B src tgt).2.1) = true := by
  intro src
  induction src with
  | nil => intro tgt; rfl
  | cons hd rest ih =>
    intro tgt
    obtain ⟨name, rows⟩ := hd
    cases hp : fetchPages B rows with
    | nil =>
      rw [runTables_empty_tr bad B name rows rest tgt hp]
      have hrec := ih tgt
      simp only [insNonempty, List.all_cons] at hrec ⊢
      simp [hrec]
    | cons p ps =>
      have hnon : ∀ q ∈ p :: ps, q ≠ [] := by
        intro q hq
        exact (fetchPages_mem B rows q (hp ▸ hq)).1
      cases hg : getTable tgt name with
      | none =>
        rw [runTables_missing_tr bad B name rows rest tgt p ps hp hg]
        simp [insNonempty, List.isEmpty_iff, hnon p (List.mem_cons_self _ _)]
      | some t =>
        cases he : (runPages bad name t (p :: ps)).2.2 with
        | true =>
          rw [runTables_err_tr bad B name rows rest tgt p ps t hp hg he]
          exact runPages_insNonempty bad name (p :: ps) t hnon
        | false =>
          rw [runTables_ok_tr bad B name rows rest tgt p ps t hp hg he,
              insNonempty_append]
          have h1 := runPages_insNonempty bad name (p :: ps) t hnon
          have h2 := ih (setTable tgt name (runPages bad name t (p :: ps)).1)
          simp only [insNonempty, List.all_cons] at h1 h2 ⊢
          simp [h1, h2]

/-- C10: no empty-page insert.  Every insert event of any run carries a
non-empty page (the per-table loop exits on the first empty fetch), and
a table with zero rows contributes no insert and no commit — its whole
contribution to the run is its summary event with row count 0, while
the rest of the run is unchanged. -/
theorem c10_no_empty_insert (bad : Row → Bool) (B : Nat)
    (src rest : List (String × List Row)) (name : String) (tgt : Tgt) :
    insNonempty ((runTables bad B src tgt).2.1) = true ∧
      runTables bad B ((name, []) :: rest) tgt =
        ((runTables bad B rest tgt).1,
         .summary name 0 :: (runTables bad B rest tgt).2.1,
         (runTables bad B rest tgt).2.2) :=
  ⟨runTables_insNonempty bad B src tgt,
   runTables_cons_empty bad B name [] rest tgt rfl⟩

end PopulateDb
